import Mathlib

/-!
# Verification of `stackerr` (github.com/jonbodner/stackerr)

A shallow embedding of `stackerr.go` in Lean 4.  Go error values are modelled
by the inductive type `GoError`:

* `base msg` — a plain error with no `Unwrap` method (such as the result of
  `errors.New(msg)`, or of `fmt.Errorf` without a `%w` verb, or the plain
  error produced when `text/template` execution fails);
* `wrapf msg inner` — the result of `fmt.Errorf` whose formatted message is
  `msg`; `inner = some e` when a `%w` verb wrapped the error `e` (so `Unwrap`
  returns `e`), `inner = none` when no `%w` verb was used;
* `stack s` — a `stackerr.errorStack` value `s`.

`ErrorStack` mirrors the Go struct `errorStack` field for field:
`Err error; trace []uintptr; earlier *errorStack`.  Program counters
(`uintptr`) are modelled as `Nat`; the nil pointer `earlier` as `Option`.

Because Go allocates each error value separately and compares errors by
identity, and our claims never distinguish two separately produced errors
with identical contents, identity of comparable errors is modelled as
structural equality on the `GoError` data.

`runtime.Callers` output is nondeterministic at the source level, so every
constructor that calls `buildStackTrace` takes the program-counter list the
runtime would deliver as an explicit argument; `buildStackTrace` applies the
source's 20-entry truncation (`make([]uintptr, 20)` filled by
`runtime.Callers`).  Symbolisation (`runtime.CallersFrames`) is modelled by
an explicit parameter `resolve : Nat → Frame`.
-/

mutual

inductive GoError : Type where
  | base : String → GoError
  | wrapf : String → Option GoError → GoError
  | stack : ErrorStack → GoError
deriving Repr

inductive ErrorStack : Type where
  | mk : (Err : GoError) → (trace : List Nat) → (earlier : Option ErrorStack) → ErrorStack
deriving Repr

end

/-- Field accessor: `errorStack.Err`. -/
def ErrorStack.Err : ErrorStack → GoError
  | .mk e _ _ => e

/-- Field accessor: `errorStack.trace`. -/
def ErrorStack.trace : ErrorStack → List Nat
  | .mk _ tr _ => tr

/-- Field accessor: `errorStack.earlier`. -/
def ErrorStack.earlier : ErrorStack → Option ErrorStack
  | .mk _ _ ea => ea

/-- Dispatch of `errors.Unwrap` / the `Unwrap` method: `errorStack.Unwrap`
returns `e.Err`; `fmt.Errorf`'s wrap-error unwraps to its `%w` operand;
plain errors have no `Unwrap` method (`none`). -/
def GoError.unwrap : GoError → Option GoError
  | .base _ => none
  | .wrapf _ inner => inner
  | .stack s => some s.Err

/-- Model of `errors.As(err, &se)` with target type `errorStack`: walk the unwrap
chain and return the first `errorStack` value found, if any. -/
def goAs : GoError → Option ErrorStack
  | .base _ => none
  | .wrapf _ none => none
  | .wrapf _ (some e) => goAs e
  | .stack s => some s

/-- The `Error()` method: `errorStack.Error` returns `e.Err.Error()`;
a `fmt.Errorf` error returns its formatted message; a plain error its
message. -/
def GoError.Error : GoError → String
  | .base msg => msg
  | .wrapf msg _ => msg
  | .stack (.mk e _ _) => e.Error

/-- Source function `buildStackTrace`: up to 20 program counters of the
caller's stack (`pc := make([]uintptr, 20); n := runtime.Callers(3, pc);
pc[:n]`).  `callers` is the caller stack the runtime would report. -/
def buildStackTrace (callers : List Nat) : List Nat :=
  callers.take 20

/-- Source function `Wrap(err)`: nil in, nil out; if an `errorStack` is already in the
chain, return the error unchanged; otherwise decorate it with a fresh
capture.  `callers` is the stack `buildStackTrace` would capture. -/
def Wrap (err : Option GoError) (callers : List Nat) : Option GoError :=
  match err with
  | none => none
  | some e =>
    match goAs e with
    | some _ => some e
    | none => some (.stack (.mk e (buildStackTrace callers) none))

/-- Source function `New(msg)`: decorate a fresh plain error with a fresh capture. -/
def New (msg : String) (callers : List Nat) : GoError :=
  .stack (.mk (.base msg) (buildStackTrace callers) none)

/-- Source function `Errorf(format, vals...)`: `fmt.Errorf` is modelled by its observable
output — the formatted message `msg` and the `%w`-wrapped operand
`wrapped` (at most one, per `fmt.Errorf`'s documented contract).  If the
formatted error's chain already holds an `errorStack st`, the new
decorator reuses `st.earlier` when set, else points at `st`, and captures
nothing; otherwise it captures fresh. -/
def Errorf (msg : String) (wrapped : Option GoError) (callers : List Nat) : GoError :=
  let err : GoError := .wrapf msg wrapped
  match goAs err with
  | some st =>
    match st.earlier with
    | some e => .stack (.mk err [] (some e))
    | none => .stack (.mk err [] (some st))
  | none => .stack (.mk err (buildStackTrace callers) none)

/-- Method `errorStack.StackTrace`: recurse through `earlier` when set, else the
frames come from this decorator's own capture (`runtime.CallersFrames`
applied to `e.trace`; the resulting iterator is modelled by the list of
program counters it will walk). -/
def ErrorStack.StackTrace : ErrorStack → List Nat
  | .mk _ tr none => tr
  | .mk _ _ (some e) => e.StackTrace

/-- Source function `HasStack(e)`: whether an `errorStack` is anywhere in the chain. -/
def HasStack (e : Option GoError) : Bool :=
  match e with
  | none => false
  | some e => (goAs e).isSome

mutual

/-- Go `==` on error values, as used by `errors.Is` when the target is
comparable.  Go compares by allocation identity; since each constructor
application in the model denotes one allocation, identity is structural
equality of the data.  (`==` on two `errorStack` interface values would
panic in Go — the type is not comparable — and is never evaluated by
`errors.Is` thanks to its comparability guard; the model gives that
unreachable case the structural value.) -/
def goEq : GoError → GoError → Bool
  | .base m1, .base m2 => m1 == m2
  | .wrapf m1 none, .wrapf m2 none => m1 == m2
  | .wrapf m1 (some e1), .wrapf m2 (some e2) => m1 == m2 && goEq e1 e2
  | .stack s1, .stack s2 => stackEq s1 s2
  | _, _ => false

/-- Structural equality of two `errorStack` values (never evaluated by
`errors.Is` at top level; reached only through `goEq` on a wrap-error,
where Go's pointer identity implies all fields coincide). -/
def stackEq : ErrorStack → ErrorStack → Bool
  | .mk e1 t1 none, .mk e2 t2 none => goEq e1 e2 && t1 == t2
  | .mk e1 t1 (some a1), .mk e2 t2 (some a2) => goEq e1 e2 && t1 == t2 && stackEq a1 a2
  | _, _ => false

end

/-- Whether the dynamic type of the error is comparable in Go's sense:
`errorStack` contains a slice field and is not comparable; the pointer
types behind plain and `fmt.Errorf` errors are. -/
def GoError.comparable : GoError → Bool
  | .stack _ => false
  | _ => true

mutual

/-- Model of `errors.Is(err, target)`: loop — if the target is comparable and
`err == target`, match; else if `err` has an `Is` method (only
`errorStack` does) that reports a match, match; else unwrap and continue,
failing when the chain ends. -/
def goIs : GoError → GoError → Bool
  | err, target =>
    if target.comparable && goEq err target then true
    else
      match err with
      | .base _ => false
      | .wrapf _ none => false
      | .wrapf _ (some e) => goIs e target
      | .stack (.mk e tr ea) =>
          ErrorStack.Is (.mk e tr ea) target || goIs e target

/-- Method `errorStack.Is`: the other error must itself be an `errorStack`, and
then the two wrapped `Err` values are compared with `errors.Is`; the
`trace` and `earlier` fields play no part. -/
def ErrorStack.Is : ErrorStack → GoError → Bool
  | .mk e _ _, .stack (.mk te _ _) => goIs e te
  | _, _ => false

end

/-- One resolved stack frame, as `runtime.Frame` exposes it to the
template: function name, file path, line number. -/
structure Frame where
  Function : String
  File : String
  Line : Nat
deriving Repr, DecidableEq

/-- The zero `runtime.Frame`, returned by `Frames.Next` when the iterator
is exhausted from the start. -/
def zeroFrame : Frame := ⟨"", "", 0⟩

/-- A `text/template` template applied to one frame: the rendered line, or
the message of the execution error (`text/template`'s execution errors,
e.g. for an undefined field, are plain errors with no unwrap chain). -/
def Template : Type := Frame → Except String String

/-- Package variable `StandardFormat`: the default template rendering a
frame as FUNCTION (FILE:LINE); it references only defined fields, so it
always renders. -/
def StandardFormat : Template := fun f =>
  .ok (f.Function ++ " (" ++ f.File ++ ":" ++ toString f.Line ++ ")")

/-- The rendering loop of `Trace`, a do-while over the frame iterator:
render the next frame (the zero frame, with no more to come, when the
iterator is empty); on a template error abort with it; otherwise append
the line and stop when the iterator reports no more frames.  `resolve`
maps a program counter to its frame. -/
def traceLoop (resolve : Nat → Frame) (t : Template) :
    List Nat → List String → List String × Option String
  | [], acc =>
    match t zeroFrame with
    | .error m => ([], some m)
    | .ok line => (acc ++ [line], none)
  | p :: rest, acc =>
    match t (resolve p) with
    | .error m => ([], some m)
    | .ok line =>
      if rest.isEmpty then (acc ++ [line], none)
      else traceLoop resolve t rest (acc ++ [line])

/-- Source function `Trace(e, t)`: no `errorStack` in the chain — return nil, nil; else
walk the frames of `se.StackTrace()` rendering each with the template; a
template error is returned wrapped by `Wrap` (capturing `wrapCallers`
at the failure point) alongside an empty result. -/
def Trace (resolve : Nat → Frame) (e : GoError) (t : Template)
    (wrapCallers : List Nat) : List String × Option GoError :=
  match goAs e with
  | none => ([], none)
  | some se =>
    match traceLoop resolve t se.StackTrace [] with
    | (_, some m) => ([], Wrap (some (.base m)) wrapCallers)
    | (lines, none) => (lines, none)

/-- The formatting verbs `errorStack.Format` distinguishes: `%+v`, plain
`%v`, `%s`, `%q`, and anything else. -/
inductive Verb : Type where
  | plusv | v | s | q | other
deriving Repr, DecidableEq

mutual

/-- Method `errorStack.Format`: `%+v` writes the wrapped error in `%+v` form,
a newline, then the `StandardFormat` trace lines joined by newlines (the
error result of `Trace` is discarded); `%v` and `%s` write `Error()`;
`%q` writes `Error()` under Go's `%q` quoting (modelled by the `quote`
parameter); any other verb writes nothing. -/
def ErrorStack.Format (resolve : Nat → Frame) (quote : String → String) :
    ErrorStack → Verb → String
  | .mk err tr ea, .plusv =>
    plusvRender resolve quote err ++ "\n" ++
      String.intercalate "\n"
        (Trace resolve (.stack (.mk err tr ea)) StandardFormat []).1
  | .mk err tr ea, .v => (GoError.stack (.mk err tr ea)).Error
  | .mk err tr ea, .s => (GoError.stack (.mk err tr ea)).Error
  | .mk err tr ea, .q => quote ((GoError.stack (.mk err tr ea)).Error)
  | _, .other => ""

/-- Rendering by `fmt` of an arbitrary error under `%+v`: an `errorStack`
implements `fmt.Formatter`, so formatting dispatches to its `Format`
method with the plus flag; any other error renders as its `Error()`
string. -/
def plusvRender (resolve : Nat → Frame) (quote : String → String) :
    GoError → String
  | .stack s => ErrorStack.Format resolve quote s .plusv
  | e => e.Error

end

/-- The unwrap chain of an error: the error itself, then the chain of
what it unwraps to. -/
def chain : GoError → List GoError
  | .base m => [.base m]
  | .wrapf m none => [.wrapf m none]
  | .wrapf m (some e) => .wrapf m (some e) :: chain e
  | .stack (.mk e tr ea) => .stack (.mk e tr ea) :: chain e

/-- The `errorStack` values occurring along the unwrap chain. -/
def stacksInChain (e : GoError) : List ErrorStack :=
  (chain e).filterMap fun x =>
    match x with
    | .stack s => some s
    | _ => none

/-- The error values reachable through the library's public API.
`Reach false e`: a value a caller may legitimately hand to the package — a
plain error, a `fmt.Errorf` wrapping of such values, or anything the
package itself produced.  `Reach true e`: a value returned by `Wrap`, `New`
or `Errorf`.  The side conditions `tr ≠ []` record that `runtime.Callers`
always reports at least one caller frame. -/
inductive Reach : Bool → GoError → Prop where
  | base (m : String) : Reach false (.base m)
  | wrapfNone (m : String) : Reach false (.wrapf m none)
  | wrapfSome (m : String) (e : GoError) :
      Reach false e → Reach false (.wrapf m (some e))
  | ofProd (e : GoError) : Reach true e → Reach false e
  | wrap (e e' : GoError) (tr : List Nat) :
      Reach false e → tr ≠ [] → Wrap (some e) tr = some e' → Reach true e'
  | new (m : String) (tr : List Nat) : tr ≠ [] → Reach true (New m tr)
  | errorfNone (m : String) (tr : List Nat) :
      tr ≠ [] → Reach true (Errorf m none tr)
  | errorfSome (m : String) (e : GoError) (tr : List Nat) :
      Reach false e → tr ≠ [] → Reach true (Errorf m (some e) tr)

/-- The single-capture invariant over an unwrap chain: exactly one
`errorStack` in the chain holds captured frames; every frameless
`errorStack` points through `earlier` at an `errorStack` that holds
frames, has no `earlier` of its own, and lies on the frameless one's own
unwrap chain; and a frame-holding `errorStack` never has an `earlier`. -/
def ChainInv (e : GoError) : Prop :=
  (stacksInChain e).countP (fun s => !s.trace.isEmpty) = 1 ∧
  (∀ s ∈ stacksInChain e, s.trace = [] →
    ∃ h, s.earlier = some h ∧ h.trace ≠ [] ∧ h.earlier = none ∧
      GoError.stack h ∈ chain (GoError.stack s)) ∧
  (∀ s ∈ stacksInChain e, s.trace ≠ [] → s.earlier = none)

/-- An argument-position error either carries no `errorStack` at all or
satisfies the single-capture invariant. -/
def ArgChainInv (e : GoError) : Prop :=
  stacksInChain e = [] ∨ ChainInv e

theorem goAs_eq_head : ∀ e : GoError, goAs e = (stacksInChain e).head?
  | .base _ => rfl
  | .wrapf _ none => rfl
  | .wrapf m (some e) => by
    simpa [goAs, stacksInChain, chain] using goAs_eq_head e
  | .stack (.mk e tr ea) => by
    simp [goAs, stacksInChain, chain]

theorem mem_stacksInChain {s : ErrorStack} {e : GoError} :
    s ∈ stacksInChain e ↔ GoError.stack s ∈ chain e := by
  unfold stacksInChain
  rw [List.mem_filterMap]
  constructor
  · rintro ⟨a, ha, hfa⟩
    cases a with
    | base m => simp at hfa
    | wrapf m i => simp at hfa
    | stack s' => simp at hfa; subst hfa; exact ha
  · intro h
    exact ⟨GoError.stack s, h, rfl⟩

theorem chain_trans : ∀ (y x : GoError), x ∈ chain y → ∀ z ∈ chain x, z ∈ chain y
  | .base m, x, hx => by
    simp [chain] at hx; subst hx; exact fun z hz => hz
  | .wrapf m none, x, hx => by
    simp [chain] at hx; subst hx; exact fun z hz => hz
  | .wrapf m (some e), x, hx => by
    rw [chain] at hx
    rcases List.mem_cons.1 hx with h | h
    · subst h; exact fun z hz => hz
    · intro z hz
      rw [chain]
      exact List.mem_cons_of_mem _ (chain_trans e x h z hz)
  | .stack (.mk e tr ea), x, hx => by
    rw [chain] at hx
    rcases List.mem_cons.1 hx with h | h
    · subst h; exact fun z hz => hz
    · intro z hz
      rw [chain]
      exact List.mem_cons_of_mem _ (chain_trans e x h z hz)

theorem stackTrace_of_earlier_none {s : ErrorStack} (h : s.earlier = none) :
    s.StackTrace = s.trace := by
  cases s with
  | mk e tr ea =>
    cases ea with
    | none => rfl
    | some a => simp [ErrorStack.earlier] at h

theorem stackTrace_of_earlier_some {s : ErrorStack} {a : ErrorStack}
    (h : s.earlier = some a) : s.StackTrace = a.StackTrace := by
  cases s with
  | mk e tr ea =>
    cases ea with
    | none => simp [ErrorStack.earlier] at h
    | some a' =>
      simp [ErrorStack.earlier] at h
      subst h; rfl

theorem take20_ne_nil {tr : List Nat} (h : tr ≠ []) : buildStackTrace tr ≠ [] := by
  cases tr with
  | nil => exact absurd rfl h
  | cons a l => simp [buildStackTrace]

/-- The rendering of a frame whose template application succeeds. -/
def renderOk (t : Template) (resolve : Nat → Frame) (p : Nat) : String :=
  match t (resolve p) with
  | .ok line => line
  | .error _ => ""

/-- The message of a frame whose template application fails. -/
def renderErr (t : Template) (resolve : Nat → Frame) (p : Nat) : String :=
  match t (resolve p) with
  | .error m => m
  | .ok _ => ""

theorem traceLoop_ok (resolve : Nat → Frame) (t : Template) :
    ∀ (pcs : List Nat) (acc : List String), pcs ≠ [] →
    (∀ p ∈ pcs, (t (resolve p)).isOk = true) →
    traceLoop resolve t pcs acc = (acc ++ pcs.map (renderOk t resolve), none)
  | [], _, hne, _ => absurd rfl hne
  | p :: rest, acc, _, hok => by
    have hp := hok p (List.mem_cons_self p rest)
    rw [traceLoop]
    cases ht : t (resolve p) with
    | error m => rw [ht] at hp; simp [Except.isOk, Except.toBool] at hp
    | ok line =>
      cases rest with
      | nil => simp [renderOk, ht]
      | cons q l =>
        have ih := traceLoop_ok resolve t (q :: l) (acc ++ [line]) (by simp)
          (fun x hx => hok x (List.mem_cons_of_mem p hx))
        simp [ih, renderOk, ht]

theorem traceLoop_err (resolve : Nat → Frame) (t : Template) :
    ∀ (pcs : List Nat) (acc : List String) (p0 : Nat),
    pcs.find? (fun p => !(t (resolve p)).isOk) = some p0 →
    traceLoop resolve t pcs acc = ([], some (renderErr t resolve p0))
  | [], _, p0, hf => by simp at hf
  | p :: rest, acc, p0, hf => by
    rw [traceLoop]
    cases ht : t (resolve p) with
    | error m =>
      have : p = p0 := by
        rw [List.find?_cons_of_pos] at hf
        · exact Option.some.inj hf
        · simp [ht, Except.isOk, Except.toBool]
      subst this
      simp [renderErr, ht]
    | ok line =>
      rw [List.find?_cons_of_neg _ (by simp [ht, Except.isOk, Except.toBool])] at hf
      cases rest with
      | nil => simp at hf
      | cons q l =>
        have ih := traceLoop_err resolve t (q :: l) (acc ++ [line]) p0 hf
        simp [ih, ht]

/-- C8 — Nil propagation: `Wrap` applied to the nil error returns nil,
with no capture and no decoration. -/
theorem wrap_nil_propagation (callers : List Nat) : Wrap none callers = none := rfl

/-- C7 — Trace absence: for an error with no `errorStack` anywhere in its
unwrap chain, `Trace` returns an empty line list and a nil error, for any
template. -/
theorem trace_absence (resolve : Nat → Frame) (e : GoError) (t : Template)
    (wc : List Nat) (h : goAs e = none) :
    Trace resolve e t wc = ([], none) := by
  unfold Trace
  rw [h]

/-- Witness for C7 at a concrete plain error. -/
theorem trace_absence_witness :
    Trace (fun _ => zeroFrame) (.base "plain") StandardFormat [1] = ([], none) :=
  trace_absence (fun _ => zeroFrame) (.base "plain") StandardFormat [1] rfl

/-- C2 — Wrap never re-captures: an error already carrying an
`errorStack` in its chain passes through `Wrap` unchanged; consequently
`Wrap` is idempotent — `Wrap (Wrap e)` and `Wrap e` are the same value
(hence same display string and same resolved trace), and both report
`HasStack`. -/
theorem wrap_idempotent :
    (∀ (e : GoError) (tr : List Nat),
      (goAs e).isSome = true → Wrap (some e) tr = some e) ∧
    (∀ (e : GoError) (tr1 tr2 : List Nat),
      Wrap (Wrap (some e) tr1) tr2 = Wrap (some e) tr1 ∧
      HasStack (Wrap (some e) tr1) = true ∧
      HasStack (Wrap (Wrap (some e) tr1) tr2) = true) := by
  constructor
  · intro e tr h
    cases hg : goAs e with
    | none => rw [hg] at h; simp at h
    | some s => simp [Wrap, hg]
  · intro e tr1 tr2
    cases hg : goAs e with
    | some s =>
      have h1 : Wrap (some e) tr1 = some e := by simp [Wrap, hg]
      have h2 : Wrap (some e) tr2 = some e := by simp [Wrap, hg]
      refine ⟨by rw [h1, h2], ?_, ?_⟩ <;> simp [h1, h2, HasStack, hg]
    | none =>
      have h1 : Wrap (some e) tr1 =
          some (.stack (.mk e (buildStackTrace tr1) none)) := by
        simp [Wrap, hg]
      have hg2 : goAs (.stack (.mk e (buildStackTrace tr1) none)) =
          some (.mk e (buildStackTrace tr1) none) := rfl
      have h2 : Wrap (some (GoError.stack (.mk e (buildStackTrace tr1) none))) tr2 =
          some (.stack (.mk e (buildStackTrace tr1) none)) := by
        simp [Wrap, hg2]
      refine ⟨by rw [h1, h2], ?_, ?_⟩ <;> simp [h1, h2, HasStack, hg2]

/-- Witness for C2 at a concrete decorated error. -/
theorem wrap_idempotent_witness :
    Wrap (some (GoError.stack (.mk (.base "m") [1] none))) [2] =
      some (GoError.stack (.mk (.base "m") [1] none)) :=
  wrap_idempotent.1 (GoError.stack (.mk (.base "m") [1] none)) [2] rfl

/-- C4 — One line per frame, in stack order: on an error carrying an
`errorStack`, when the template renders every resolved frame successfully,
`Trace` returns exactly the per-frame renderings, innermost captured frame
first (the order of the resolved program counters), with a nil error.
The hypothesis `se.StackTrace ≠ []` records that `runtime.Callers` always
captures at least one frame at the original capture point. -/
theorem trace_one_line_per_frame (resolve : Nat → Frame) (t : Template)
    (e : GoError) (wc : List Nat) (se : ErrorStack)
    (h1 : goAs e = some se) (h2 : se.StackTrace ≠ [])
    (h3 : ∀ p ∈ se.StackTrace, (t (resolve p)).isOk = true) :
    Trace resolve e t wc = (se.StackTrace.map (renderOk t resolve), none) := by
  have hl := traceLoop_ok resolve t se.StackTrace [] h2 h3
  simp [Trace, h1, hl]

/-- Witness for C4: a two-frame decorated error under the standard
template. -/
theorem trace_one_line_per_frame_witness :
    Trace (fun p => ⟨"f" ++ toString p, "file", p⟩)
        (GoError.stack (.mk (.base "m") [1, 2] none)) StandardFormat [7] =
      (["f1 (file:1)", "f2 (file:2)"], none) := by
  have := trace_one_line_per_frame (fun p => ⟨"f" ++ toString p, "file", p⟩)
    StandardFormat (GoError.stack (.mk (.base "m") [1, 2] none)) [7]
    (.mk (.base "m") [1, 2] none) rfl (by simp [ErrorStack.StackTrace])
    (by intro p hp; rfl)
  rw [this]
  rfl

/-- C5 — All-or-nothing `Trace` failure: on a decorated error whose
template fails on some resolved frame, `Trace` aborts at the first failing
frame, discards every already-rendered line, and returns the rendering
error wrapped in an `errorStack` with a freshly captured trace, so
`HasStack` holds on the returned error. -/
theorem trace_all_or_nothing (resolve : Nat → Frame) (t : Template)
    (e : GoError) (wc : List Nat) (se : ErrorStack) (p0 : Nat)
    (h1 : goAs e = some se)
    (h2 : se.StackTrace.find? (fun p => !(t (resolve p)).isOk) = some p0) :
    Trace resolve e t wc =
      ([], some (.stack (.mk (.base (renderErr t resolve p0))
          (buildStackTrace wc) none))) ∧
    HasStack (Trace resolve e t wc).2 = true := by
  have hT : Trace resolve e t wc =
      ([], some (.stack (.mk (.base (renderErr t resolve p0))
        (buildStackTrace wc) none))) := by
    have hl := traceLoop_err resolve t se.StackTrace [] p0 h2
    simp [Trace, h1, hl, Wrap, goAs]
  exact ⟨hT, by rw [hT]; rfl⟩

/-- Witness for C5: a template rejecting every frame, applied to a
one-frame decorated error. -/
theorem trace_all_or_nothing_witness :
    Trace (fun _ => zeroFrame) (GoError.stack (.mk (.base "m") [3] none))
        (fun _ => Except.error "bad field" : Template) [9] =
      ([], some (.stack (.mk (.base "bad field") [9] none))) := by
  have := trace_all_or_nothing (fun _ => zeroFrame)
    (fun _ => Except.error "bad field" : Template)
    (GoError.stack (.mk (.base "m") [3] none)) [9]
    (.mk (.base "m") [3] none) 3 rfl (by rfl)
  exact this.1

/-- C1 — Chain flattening: when the error formatted by `Errorf` already
carries an `errorStack st` in its chain, the new decorator takes
`earlier = st.earlier` when that is set and `earlier = st` otherwise, and
captures no frames of its own; consequently for `d1 = New m`,
`d2 = Errorf f1 (%w d1)`, `d3 = Errorf f2 (%w d2)` the resolved trace of
`d3` (via `StackTrace` and via `Trace`) is exactly the trace captured by
`d1`, however often the error is re-wrapped through `Errorf`. -/
theorem errorf_chain_flattening :
    (∀ (msg : String) (w : Option GoError) (tr : List Nat) (st : ErrorStack),
      goAs (.wrapf msg w) = some st →
      Errorf msg w tr =
        .stack (.mk (.wrapf msg w) [] (some (st.earlier.getD st)))) ∧
    (∀ (m f1 f2 : String) (tr1 tr2 tr3 : List Nat),
      (goAs (Errorf f2 (some (Errorf f1 (some (New m tr1)) tr2)) tr3)).map
          ErrorStack.StackTrace
        = (goAs (New m tr1)).map ErrorStack.StackTrace ∧
      ∀ (resolve : Nat → Frame) (t : Template) (wc : List Nat),
        Trace resolve (Errorf f2 (some (Errorf f1 (some (New m tr1)) tr2)) tr3)
            t wc
          = Trace resolve (New m tr1) t wc) := by
  constructor
  · intro msg w tr st h
    cases hst : st.earlier with
    | some e0 => simp [Errorf, h, hst]
    | none => simp [Errorf, h, hst]
  · intro m f1 f2 tr1 tr2 tr3
    constructor
    · simp [Errorf, New, goAs, ErrorStack.earlier, ErrorStack.StackTrace]
    · intro resolve t wc
      simp [Trace, Errorf, New, goAs, ErrorStack.earlier, ErrorStack.StackTrace]

/-- Witness for C1: `Errorf` over an error whose chain holds a
capture-free view of the decorator `(.mk (.base "m") [1] none)`. -/
theorem errorf_chain_flattening_witness :
    Errorf "w" (some (GoError.stack (.mk (.base "m") [1] none))) [5] =
      .stack (.mk (.wrapf "w" (some (GoError.stack (.mk (.base "m") [1] none))))
        [] (some (.mk (.base "m") [1] none))) :=
  errorf_chain_flattening.1 "w"
    (some (GoError.stack (.mk (.base "m") [1] none))) [5]
    (.mk (.base "m") [1] none) rfl

/-- C6 — Display transparency: `Error()` on a decorator is exactly the
inner error's `Error()`; `%v` and `%s` write that display string, `%q`
writes it quoted, any other verb writes nothing, and `%+v` writes the
inner error's detailed rendering, a newline, then the resolved trace
lines (standard format) joined by newlines with no trailing newline. -/
theorem format_display_transparency (resolve : Nat → Frame)
    (quote : String → String) (s : ErrorStack) :
    (GoError.stack s).Error = s.Err.Error ∧
    ErrorStack.Format resolve quote s .v = s.Err.Error ∧
    ErrorStack.Format resolve quote s .s = s.Err.Error ∧
    ErrorStack.Format resolve quote s .q = quote s.Err.Error ∧
    ErrorStack.Format resolve quote s .other = "" ∧
    (s.StackTrace ≠ [] →
      ErrorStack.Format resolve quote s .plusv =
        plusvRender resolve quote s.Err ++ "\n" ++
          String.intercalate "\n"
            (s.StackTrace.map (renderOk StandardFormat resolve))) := by
  obtain ⟨e, tr, ea⟩ := s
  refine ⟨rfl, rfl, rfl, rfl, rfl, ?_⟩
  intro hne
  have hl := traceLoop_ok resolve StandardFormat
    (ErrorStack.StackTrace (.mk e tr ea)) [] hne (fun p _ => rfl)
  simp [ErrorStack.Format, Trace, goAs, hl, ErrorStack.Err]

/-- Witness for C6: the detailed verb on a concrete two-frame decorator. -/
theorem format_display_transparency_witness :
    ErrorStack.Format (fun p => ⟨"f" ++ toString p, "file", p⟩)
        (fun str => "\"" ++ str ++ "\"") (.mk (.base "msg") [1, 2] none) .plusv =
      "msg\nf1 (file:1)\nf2 (file:2)" := by
  have h := (format_display_transparency (fun p => ⟨"f" ++ toString p, "file", p⟩)
    (fun str => "\"" ++ str ++ "\"") (.mk (.base "msg") [1, 2] none)).2.2.2.2.2
    (by simp [ErrorStack.StackTrace])
  rw [h]
  rfl

mutual

theorem goEq_refl : ∀ e : GoError, goEq e e = true
  | .base m => by simp [goEq]
  | .wrapf m none => by simp [goEq]
  | .wrapf m (some e) => by simp [goEq, goEq_refl e]
  | .stack s => by simp [goEq, stackEq_refl s]

theorem stackEq_refl : ∀ s : ErrorStack, stackEq s s = true
  | .mk e tr none => by simp [stackEq, goEq_refl e]
  | .mk e tr (some a) => by simp [stackEq, goEq_refl e, stackEq_refl a]

end

theorem goIs_refl : ∀ e : GoError, goIs e e = true
  | .base m => by rw [goIs]; simp [GoError.comparable, goEq_refl]
  | .wrapf m none => by rw [goIs]; simp [GoError.comparable, goEq_refl]
  | .wrapf m (some e) => by rw [goIs]; simp [GoError.comparable, goEq_refl]
  | .stack (.mk e tr ea) => by
    rw [goIs]
    simp [GoError.comparable, ErrorStack.Is, goIs_refl e]

/-- C9 — Chain-matching equality: `errorStack.Is` succeeds exactly when
the other error is itself an `errorStack` and the two inner errors
chain-match under `errors.Is`; the `trace` and `earlier` fields never
enter.  `Is(d, d)` holds for every decorator, and a decorator never
matches a plain error carrying a different message. -/
theorem is_chain_matching :
    (∀ (e : ErrorStack) (other : GoError),
      ErrorStack.Is e other = true ↔
        ∃ s : ErrorStack, other = .stack s ∧ goIs e.Err s.Err = true) ∧
    (∀ s : ErrorStack, ErrorStack.Is s (.stack s) = true) ∧
    (∀ (m1 m2 : String) (tr : List Nat) (ea : Option ErrorStack), m1 ≠ m2 →
      goIs (.stack (.mk (.base m1) tr ea)) (.base m2) = false ∧
      ErrorStack.Is (.mk (.base m1) tr ea) (.base m2) = false) := by
  refine ⟨?_, ?_, ?_⟩
  · intro e other
    obtain ⟨ie, it, ia⟩ := e
    cases other with
    | base m => simp [ErrorStack.Is]
    | wrapf m i => simp [ErrorStack.Is]
    | stack s =>
      obtain ⟨te, tt, ta⟩ := s
      constructor
      · intro h
        exact ⟨.mk te tt ta, rfl, by simpa [ErrorStack.Is, ErrorStack.Err] using h⟩
      · rintro ⟨s', hs', hgo⟩
        obtain ⟨a, b, c⟩ := s'
        cases hs'
        simpa [ErrorStack.Is, ErrorStack.Err] using hgo
  · intro s
    obtain ⟨e, tr, ea⟩ := s
    simp [ErrorStack.Is, goIs_refl e]
  · intro m1 m2 tr ea h
    have hbase : goIs (.base m1) (.base m2) = false := by
      rw [goIs]
      simp [GoError.comparable, goEq, h]
    have hstack : goIs (.stack (.mk (.base m1) tr ea)) (.base m2) = false := by
      rw [goIs]
      simp [GoError.comparable, goEq, ErrorStack.Is, hbase]
    exact ⟨hstack, by simp [ErrorStack.Is]⟩

/-- Witness for C9: a decorator matches itself; with messages "a" and
"b" a decorator does not match the plain error. -/
theorem is_chain_matching_witness :
    ErrorStack.Is (.mk (.base "a") [1] none)
        (.stack (.mk (.base "a") [1] none)) = true ∧
    goIs (.stack (.mk (.base "a") [1] none)) (.base "b") = false :=
  ⟨is_chain_matching.2.1 (.mk (.base "a") [1] none),
   (is_chain_matching.2.2 "a" "b" [1] none (by decide)).1⟩

theorem stacksInChain_base (m : String) : stacksInChain (.base m) = [] := rfl

theorem stacksInChain_wrapfNone (m : String) :
    stacksInChain (.wrapf m none) = [] := rfl

theorem stacksInChain_wrapfSome (m : String) (e : GoError) :
    stacksInChain (.wrapf m (some e)) = stacksInChain e := by
  simp [stacksInChain, chain]

theorem stacksInChain_stack (e : GoError) (tr : List Nat)
    (ea : Option ErrorStack) :
    stacksInChain (.stack (.mk e tr ea)) = .mk e tr ea :: stacksInChain e := by
  simp [stacksInChain, chain]

theorem goAs_none_stacks {e : GoError} (h : goAs e = none) :
    stacksInChain e = [] := by
  rw [goAs_eq_head] at h
  exact List.head?_eq_none_iff.1 h

theorem goAs_some_mem {e : GoError} {st : ErrorStack} (h : goAs e = some st) :
    st ∈ stacksInChain e := by
  rw [goAs_eq_head] at h
  cases hl : stacksInChain e with
  | nil => rw [hl] at h; simp at h
  | cons x xs =>
    rw [hl] at h
    simp at h
    subst h
    exact List.mem_cons_self x xs

theorem countP_one_unique {α : Type} (p : α → Bool) :
    ∀ (l : List α), l.countP p = 1 →
      ∀ a ∈ l, p a = true → ∀ b ∈ l, p b = true → a = b
  | [], _, a, ha, _, _, _, _ => absurd ha (List.not_mem_nil a)
  | x :: xs, h, a, ha, hpa, b, hb, hpb => by
    by_cases hx : p x = true
    · rw [List.countP_cons_of_pos _ _ hx] at h
      have hxs : xs.countP p = 0 := by omega
      have hnone : ∀ c ∈ xs, ¬ p c = true :=
        fun c hc => (List.countP_eq_zero.1 hxs) c hc
      have ha' : a = x := by
        rcases List.mem_cons.1 ha with h' | h'
        · exact h'
        · exact absurd hpa (hnone a h')
      have hb' : b = x := by
        rcases List.mem_cons.1 hb with h' | h'
        · exact h'
        · exact absurd hpb (hnone b h')
      rw [ha', hb']
    · rw [List.countP_cons_of_neg _ _ (by simpa using hx)] at h
      have ha' : a ∈ xs := by
        rcases List.mem_cons.1 ha with h' | h'
        · subst h'; exact absurd hpa hx
        · exact h'
      have hb' : b ∈ xs := by
        rcases List.mem_cons.1 hb with h' | h'
        · subst h'; exact absurd hpb hx
        · exact h'
      exact countP_one_unique p xs h a ha' hpa b hb' hpb

theorem chainInv_wrapf {e : GoError} (m : String) (h : ChainInv e) :
    ChainInv (.wrapf m (some e)) := by
  obtain ⟨h1, h2, h3⟩ := h
  exact ⟨by rw [stacksInChain_wrapfSome]; exact h1,
    fun s hs => h2 s (by rwa [stacksInChain_wrapfSome] at hs),
    fun s hs => h3 s (by rwa [stacksInChain_wrapfSome] at hs)⟩

theorem chainInv_fresh {e : GoError} {tr : List Nat}
    (h0 : stacksInChain e = []) (hne : tr ≠ []) :
    ChainInv (.stack (.mk e tr none)) := by
  refine ⟨?_, ?_, ?_⟩
  · rw [stacksInChain_stack, h0]
    simp [List.countP_cons, ErrorStack.trace, hne]
  · intro s hs hstr
    rw [stacksInChain_stack, h0] at hs
    simp at hs
    subst hs
    simp [ErrorStack.trace] at hstr
    exact absurd hstr hne
  · intro s hs _
    rw [stacksInChain_stack, h0] at hs
    simp at hs
    subst hs
    rfl

theorem chainInv_reuse {err : GoError} {hld : ErrorStack}
    (hinv : ChainInv err)
    (hldtr : hld.trace ≠ []) (hldea : hld.earlier = none)
    (hldmem : GoError.stack hld ∈ chain err) :
    ChainInv (.stack (.mk err [] (some hld))) := by
  obtain ⟨h1, h2, h3⟩ := hinv
  refine ⟨?_, ?_, ?_⟩
  · rw [stacksInChain_stack]
    rw [List.countP_cons_of_neg _ _ (by simp [ErrorStack.trace])]
    exact h1
  · intro s hs hstr
    rw [stacksInChain_stack] at hs
    rcases List.mem_cons.1 hs with h' | h'
    · subst h'
      refine ⟨hld, rfl, hldtr, hldea, ?_⟩
      rw [chain]
      exact List.mem_cons_of_mem _ hldmem
    · exact h2 s h' hstr
  · intro s hs hstr
    rw [stacksInChain_stack] at hs
    rcases List.mem_cons.1 hs with h' | h'
    · subst h'
      simp [ErrorStack.trace] at hstr
    · exact h3 s h' hstr

theorem reach_inv : ∀ {b : Bool} {e : GoError}, Reach b e →
    ArgChainInv e ∧ (b = true → ChainInv e) := by
  intro b e h
  induction h with
  | base m => exact ⟨Or.inl rfl, by simp⟩
  | wrapfNone m => exact ⟨Or.inl rfl, by simp⟩
  | wrapfSome m e he ih =>
    refine ⟨?_, by simp⟩
    rcases ih.1 with h0 | hinv
    · exact Or.inl (by rw [stacksInChain_wrapfSome]; exact h0)
    · exact Or.inr (chainInv_wrapf m hinv)
  | ofProd e hp ih => exact ⟨ih.1, by simp⟩
  | wrap e e' tr he hne heq ih =>
    cases hg : goAs e with
    | some s =>
      simp [Wrap, hg] at heq
      subst heq
      have hinv : ChainInv e := by
        rcases ih.1 with h0 | hi
        · exact absurd (goAs_some_mem hg) (by rw [h0]; exact List.not_mem_nil s)
        · exact hi
      exact ⟨Or.inr hinv, fun _ => hinv⟩
    | none =>
      simp [Wrap, hg] at heq
      subst heq
      have inv : ChainInv (.stack (.mk e (buildStackTrace tr) none)) :=
        chainInv_fresh (goAs_none_stacks hg) (take20_ne_nil hne)
      exact ⟨Or.inr inv, fun _ => inv⟩
  | new m tr hne =>
    have inv : ChainInv (.stack (.mk (.base m) (buildStackTrace tr) none)) :=
      chainInv_fresh rfl (take20_ne_nil hne)
    exact ⟨Or.inr inv, fun _ => inv⟩
  | errorfNone m tr hne =>
    have inv : ChainInv (.stack (.mk (.wrapf m none) (buildStackTrace tr) none)) :=
      chainInv_fresh rfl (take20_ne_nil hne)
    exact ⟨Or.inr inv, fun _ => inv⟩
  | errorfSome m e tr he hne ih =>
    cases hg : goAs e with
    | none =>
      have h0 : stacksInChain (.wrapf m (some e)) = [] := by
        rw [stacksInChain_wrapfSome]
        exact goAs_none_stacks hg
      have heq : Errorf m (some e) tr =
          .stack (.mk (.wrapf m (some e)) (buildStackTrace tr) none) := by
        simp [Errorf, goAs, hg]
      have inv := chainInv_fresh h0 (take20_ne_nil hne)
      rw [heq]
      exact ⟨Or.inr inv, fun _ => inv⟩
    | some st =>
      have hinv : ChainInv e := by
        rcases ih.1 with h0 | hi
        · exact absurd (goAs_some_mem hg) (by rw [h0]; exact List.not_mem_nil st)
        · exact hi
      have hinvw : ChainInv (.wrapf m (some e)) := chainInv_wrapf m hinv
      have hmem : st ∈ stacksInChain (.wrapf m (some e)) := by
        rw [stacksInChain_wrapfSome]
        exact goAs_some_mem hg
      have hmemc : GoError.stack st ∈ chain (.wrapf m (some e)) :=
        mem_stacksInChain.1 hmem
      cases hea : st.earlier with
      | none =>
        have hsttr : st.trace ≠ [] := by
          intro h0
          obtain ⟨hh, hhe, _, _, _⟩ := hinvw.2.1 st hmem h0
          rw [hea] at hhe
          exact Option.noConfusion hhe
        have heq : Errorf m (some e) tr =
            .stack (.mk (.wrapf m (some e)) [] (some st)) := by
          simp [Errorf, goAs, hg, hea]
        have inv := chainInv_reuse hinvw hsttr hea hmemc
        rw [heq]
        exact ⟨Or.inr inv, fun _ => inv⟩
      | some e0 =>
        have hsttr : st.trace = [] := by
          by_cases h0 : st.trace = []
          · exact h0
          · have h3 := hinvw.2.2 st hmem h0
            rw [hea] at h3
            exact Option.noConfusion h3
        obtain ⟨hh, hhe, hhtr, hhea, hhmem⟩ := hinvw.2.1 st hmem hsttr
        have hinj : some e0 = some hh := by rw [← hea, hhe]
        obtain rfl := Option.some.inj hinj
        have hmem0 : GoError.stack e0 ∈ chain (.wrapf m (some e)) :=
          chain_trans _ _ hmemc _ hhmem
        have heq : Errorf m (some e) tr =
            .stack (.mk (.wrapf m (some e)) [] (some e0)) := by
          simp [Errorf, goAs, hg, hea]
        have inv := chainInv_reuse hinvw hhtr hhea hmem0
        rw [heq]
        exact ⟨Or.inr inv, fun _ => inv⟩

/-- C3 — Single-capture invariant: in the unwrap chain of every error
produced by the public constructors (in any composition, with arbitrary
plain errors and further `fmt.Errorf` wrapping in argument position),
exactly one `errorStack` holds a non-empty captured trace; that holder
has no `earlier`; and every other `errorStack` in the chain is frameless,
references the holder through its `earlier` field, and also unwraps
(transitively) to the holder. -/
theorem single_capture_invariant (e : GoError) (h : Reach true e) :
    ∃ hld, hld ∈ stacksInChain e ∧ hld.trace ≠ [] ∧ hld.earlier = none ∧
      (stacksInChain e).countP (fun s => !s.trace.isEmpty) = 1 ∧
      ∀ s ∈ stacksInChain e, s ≠ hld →
        s.trace = [] ∧ s.earlier = some hld ∧
        GoError.stack hld ∈ chain (GoError.stack s) := by
  obtain ⟨h1, h2, h3⟩ := (reach_inv h).2 rfl
  have hex : ∃ a ∈ stacksInChain e, (!a.trace.isEmpty) = true :=
    List.countP_pos_iff.1 (by omega)
  obtain ⟨hld, hmem, hp⟩ := hex
  have hldtr : hld.trace ≠ [] := by simpa using hp
  refine ⟨hld, hmem, hldtr, h3 hld hmem hldtr, h1, ?_⟩
  intro s hs hne
  have hstr : s.trace = [] := by
    by_cases h0 : s.trace = []
    · exact h0
    · exact absurd
        (countP_one_unique _ _ h1 s hs (by simpa using h0) hld hmem hp) hne
  obtain ⟨hh, hhe, hhtr, _, hhmem⟩ := h2 s hs hstr
  have hsc : GoError.stack s ∈ chain e := mem_stacksInChain.1 hs
  have hhc : GoError.stack hh ∈ chain e := chain_trans _ _ hsc _ hhmem
  have hhmem' : hh ∈ stacksInChain e := mem_stacksInChain.2 hhc
  have hhld : hh = hld :=
    countP_one_unique _ _ h1 hh hhmem' (by simpa using hhtr) hld hmem hp
  subst hhld
  exact ⟨hstr, hhe, hhmem⟩

/-- Witness for C3: `Errorf` wrapping a `New`-produced decorator. -/
theorem single_capture_invariant_witness :
    ∃ hld, hld ∈ stacksInChain (Errorf "w" (some (New "m" [1])) [2]) ∧
      hld.trace ≠ [] ∧ hld.earlier = none ∧
      (stacksInChain (Errorf "w" (some (New "m" [1])) [2])).countP
        (fun s => !s.trace.isEmpty) = 1 ∧
      ∀ s ∈ stacksInChain (Errorf "w" (some (New "m" [1])) [2]), s ≠ hld →
        s.trace = [] ∧ s.earlier = some hld ∧
        GoError.stack hld ∈ chain (GoError.stack s) :=
  single_capture_invariant (Errorf "w" (some (New "m" [1])) [2])
    (Reach.errorfSome "w" (New "m" [1]) [2]
      (Reach.ofProd (New "m" [1]) (Reach.new "m" [1] (by decide)))
      (by decide))

/-- C10 — Earlier-reference depth is at most one: in every reachable
error, an `errorStack` whose `earlier` is set points at an `errorStack`
whose own `earlier` is nil and whose captured trace is non-empty, so
`StackTrace` resolution takes at most one recursive step (and, being a
total function here, always terminates). -/
theorem earlier_depth_at_most_one (e : GoError) (h : Reach true e) :
    ∀ s ∈ stacksInChain e, ∀ s', s.earlier = some s' →
      s'.earlier = none ∧ s'.trace ≠ [] ∧
      s.StackTrace = s'.trace ∧ s'.StackTrace = s'.trace := by
  obtain ⟨h1, h2, h3⟩ := (reach_inv h).2 rfl
  intro s hs s' hea
  have hstr : s.trace = [] := by
    by_cases h0 : s.trace = []
    · exact h0
    · rw [h3 s hs h0] at hea
      exact Option.noConfusion hea
  obtain ⟨hh, hhe, hhtr, hhea, _⟩ := h2 s hs hstr
  have hinj : some s' = some hh := by rw [← hea, hhe]
  obtain rfl := Option.some.inj hinj
  exact ⟨hhea, hhtr,
    by rw [stackTrace_of_earlier_some hea, stackTrace_of_earlier_none hhea],
    stackTrace_of_earlier_none hhea⟩

/-- Witness for C10: the two-decorator chain built by `Errorf` over
`New`. -/
theorem earlier_depth_at_most_one_witness :
    (ErrorStack.mk (.base "m") [1] none).earlier = none ∧
    (ErrorStack.mk (.base "m") [1] none).trace ≠ [] ∧
    (ErrorStack.mk (.wrapf "w" (some (.stack (.mk (.base "m") [1] none)))) []
        (some (.mk (.base "m") [1] none))).StackTrace =
      (ErrorStack.mk (.base "m") [1] none).trace ∧
    (ErrorStack.mk (.base "m") [1] none).StackTrace =
      (ErrorStack.mk (.base "m") [1] none).trace :=
  earlier_depth_at_most_one (Errorf "w" (some (New "m" [1])) [2])
    (Reach.errorfSome "w" (New "m" [1]) [2]
      (Reach.ofProd (New "m" [1]) (Reach.new "m" [1] (by decide)))
      (by decide))
    (.mk (.wrapf "w" (some (.stack (.mk (.base "m") [1] none)))) []
      (some (.mk (.base "m") [1] none)))
    (List.mem_cons_self _ _)
    (.mk (.base "m") [1] none) rfl
